import Mathlib

/-!
Shallow embedding of the poker benchmark repository (poker_game.py,
game_simulator.py): card model, hand evaluator, Texas Hold'em betting
engine, showdown resolution, and the benchmark aggregation, together with
theorems settling the frozen claims about them.
-/

namespace PokerBench

/-- Suits of a card, as in the `Suit` enum of poker_game.py. -/
inductive Suit
| hearts
| diamonds
| clubs
| spades
deriving DecidableEq

/-- A playing card: rank value 2..14 (11..14 = J,Q,K,A) and a suit,
as the `Card` dataclass of poker_game.py (`Rank` enum values inlined). -/
structure Card where
  rank : Nat
  suit : Suit
deriving DecidableEq

/-- Hand categories, as the `HandRank` enum of poker_game.py. -/
inductive HandRank
| highCard
| pair
| twoPair
| threeOfAKind
| straight
| flush
| fullHouse
| fourOfAKind
| straightFlush
| royalFlush
deriving DecidableEq, Fintype

/-- Numeric value of a `HandRank`, mirroring the enum values 1..10. -/
def HandRank.value : HandRank → Nat
| .highCard => 1
| .pair => 2
| .twoPair => 3
| .threeOfAKind => 4
| .straight => 5
| .flush => 6
| .fullHouse => 7
| .fourOfAKind => 8
| .straightFlush => 9
| .royalFlush => 10

/-- A hand evaluation: category plus tiebreak kicker list, as the
`HandEvaluation` dataclass of poker_game.py. -/
structure HandEvaluation where
  rank : HandRank
  kickers : List Nat
deriving DecidableEq

/-- Python lexicographic `<` on lists of ints (shorter prefix is smaller),
used by `HandEvaluation.__lt__` and `__gt__` on the kicker lists. -/
def listLt : List Nat → List Nat → Bool
| [], [] => false
| [], _ :: _ => true
| _ :: _, [] => false
| a :: as, b :: bs => if a < b then true else if b < a then false else listLt as bs

/-- `HandEvaluation.__lt__`: compare category values, then kickers
lexicographically. -/
def hlt (a b : HandEvaluation) : Bool :=
  if a.rank.value ≠ b.rank.value then decide (a.rank.value < b.rank.value)
  else listLt a.kickers b.kickers

/-- `HandEvaluation.__gt__`: compare category values, then kickers
lexicographically. -/
def hgt (a b : HandEvaluation) : Bool :=
  if a.rank.value ≠ b.rank.value then decide (b.rank.value < a.rank.value)
  else listLt b.kickers a.kickers

/-- `HandEvaluation.__eq__`: equal category value and equal kickers. -/
def pyEq (a b : HandEvaluation) : Bool :=
  decide (a.rank.value = b.rank.value) && decide (a.kickers = b.kickers)

/-- `HandEvaluation.__le__`: less-than or equal. -/
def hle (a b : HandEvaluation) : Bool := hlt a b || pyEq a b

/-- `HandEvaluation.__ge__`: greater-than or equal. -/
def hge (a b : HandEvaluation) : Bool := hgt a b || pyEq a b

/-- Sort a list of naturals in descending order
(Python `sorted(l, reverse=True)`). -/
def sortDesc (l : List Nat) : List Nat := l.insertionSort (fun a b => b ≤ a)

/-- Sort a list of naturals in ascending order (Python `sorted(l)`). -/
def sortAsc (l : List Nat) : List Nat := l.insertionSort (fun a b => a ≤ b)

/-- Check that consecutive entries each increase by exactly one, mirroring
the index loop in `PokerHand._is_straight`. -/
def consecutive : List Nat → Bool
| [] => true
| [_] => true
| a :: b :: rest => (b = a + 1 : Bool) && consecutive (b :: rest)

/-- `PokerHand._is_straight`: sort the distinct ranks ascending; exactly 5
distinct ranks that are either the ace-low wheel [2,3,4,5,14] or
consecutive. -/
def isStraight (ranks : List Nat) : Bool :=
  let s := sortAsc ranks.dedup
  if s.length ≠ 5 then false
  else if s = [2, 3, 4, 5, 14] then true
  else consecutive s

/-- Maximum of a list of naturals (Python `max`, with 0 on the empty list,
which Python instead rejects; only ever applied to nonempty rank lists). -/
def listMax (l : List Nat) : Nat := l.foldl Nat.max 0

/-- Core of `PokerHand.evaluate`, operating on the descending-sorted rank
list and the number of distinct suits (`len(set(suits))`), which are the
only two pieces of data the Python body reads from the cards. -/
def evalCore (ranks : List Nat) (numSuits : Nat) : HandEvaluation :=
  let isFlush : Bool := numSuits = 1
  let isStr := isStraight ranks
  let uniq := ranks.dedup
  let cnt : Nat → Nat := fun r => ranks.count r
  if isStr && isFlush then
    if ranks.headD 0 = 14 then ⟨.royalFlush, [14]⟩
    else ⟨.straightFlush, [listMax ranks]⟩
  else
    let counts := sortDesc (uniq.map cnt)
    if counts = [4, 1] then
      ⟨.fourOfAKind, [(uniq.filter (fun r => cnt r = 4)).headD 0,
                      (uniq.filter (fun r => cnt r = 1)).headD 0]⟩
    else if counts = [3, 2] then
      ⟨.fullHouse, [(uniq.filter (fun r => cnt r = 3)).headD 0,
                    (uniq.filter (fun r => cnt r = 2)).headD 0]⟩
    else if isFlush then ⟨.flush, ranks⟩
    else if isStr then ⟨.straight, [listMax ranks]⟩
    else if counts = [3, 1, 1] then
      ⟨.threeOfAKind, (uniq.filter (fun r => cnt r = 3)).headD 0 ::
                      sortDesc (uniq.filter (fun r => cnt r = 1))⟩
    else if counts = [2, 2, 1] then
      ⟨.twoPair, sortDesc (uniq.filter (fun r => cnt r = 2)) ++
                 [(uniq.filter (fun r => cnt r = 1)).headD 0]⟩
    else if counts = [2, 1, 1, 1] then
      ⟨.pair, (uniq.filter (fun r => cnt r = 2)).headD 0 ::
              sortDesc (uniq.filter (fun r => cnt r = 1))⟩
    else ⟨.highCard, ranks⟩

/-- `PokerHand.evaluate`: rank a 5-card hand. The Python body first forms
`ranks = sorted(values, reverse=True)` and `is_flush = len(set(suits)) == 1`
and then reads the cards only through those two values. -/
def evaluate (cards : List Card) : HandEvaluation :=
  evalCore (sortDesc (cards.map Card.rank)) (cards.map Card.suit).dedup.length

/-- The fold of `TexasHoldem._get_best_hand`: keep the current best and
replace it whenever a later evaluation is strictly greater (`__gt__`). -/
def foldBest : HandEvaluation → List HandEvaluation → HandEvaluation
| best, [] => best
| best, e :: rest => foldBest (if hgt e best then e else best) rest

/-- `TexasHoldem._get_best_hand`: evaluate every 5-card combination of the
given cards and keep the maximum; `none` when there is no 5-card
combination (Python starts from `best_hand = None`). -/
def getBestHand (cards : List Card) : Option HandEvaluation :=
  match (cards.sublistsLen 5).map evaluate with
  | [] => none
  | e :: rest => some (foldBest e rest)

/-- Player actions, as the `GameAction` enum of poker_game.py. -/
inductive GameAction
| fold
| call
| raise
| check
deriving DecidableEq

/-- The `PlayerAction` dataclass: an action kind plus an amount. -/
structure PlayerActionT where
  action : GameAction
  amount : Int
deriving DecidableEq

/-- The `GameState` snapshot dataclass built by
`TexasHoldem._get_game_state` and handed to agents. Python dictionaries
keyed by player name are embedded as functions from names. -/
structure GameState where
  communityCards : List Card
  potSize : Int
  currentBet : Int
  playerChips : String → Int
  playerHoleCards : String → List Card
  activePlayers : List String
  bettingRound : String
  toAct : String

/-- The mutable state of the `TexasHoldem` class. Python dictionaries keyed
by player name are embedded as functions from names; the folded-player set
is a list. -/
structure TexasHoldem where
  players : List String
  startingChips : Int
  smallBlind : Int
  bigBlind : Int
  chips : String → Int
  deck : List Card
  communityCards : List Card
  holeCards : String → List Card
  pot : Int
  currentBet : Int
  playerBets : String → Int
  activePlayers : List String
  foldedPlayers : List String
  dealerPosition : Nat

/-- `TexasHoldem.__init__`: every player starts with `startingChips`; all
per-hand state empty. -/
def mkTexasHoldem (players : List String) (startingChips smallBlind bigBlind : Int) :
    TexasHoldem :=
  { players := players
    startingChips := startingChips
    smallBlind := smallBlind
    bigBlind := bigBlind
    chips := fun _ => startingChips
    deck := []
    communityCards := []
    holeCards := fun _ => []
    pot := 0
    currentBet := 0
    playerBets := fun _ => 0
    activePlayers := []
    foldedPlayers := []
    dealerPosition := 0 }

/-- `TexasHoldem._get_game_state`: infer the betting round from the number
of community cards when none is given, and snapshot the table, including
the full hole-card dictionary of every player. -/
def getGameState (s : TexasHoldem) (bettingRound : Option String) : GameState :=
  let br := match bettingRound with
    | some b => b
    | none =>
        if s.communityCards = [] then "preflop"
        else if s.communityCards.length = 3 then "flop"
        else if s.communityCards.length = 4 then "turn"
        else "river"
  let active := s.activePlayers.filter (fun p => decide (p ∉ s.foldedPlayers))
  { communityCards := s.communityCards
    potSize := s.pot
    currentBet := s.currentBet
    playerChips := s.chips
    playerHoleCards := s.holeCards
    activePlayers := active
    bettingRound := br
    toAct := active.headD "" }

/-- `TexasHoldem._place_bet`: clamp the amount to the player's stack and
move it from the stack to the player's street contribution and the pot. -/
def placeBet (s : TexasHoldem) (player : String) (amount : Int) : TexasHoldem :=
  let actual := min amount (s.chips player)
  { s with
    chips := fun q => if q = player then s.chips q - actual else s.chips q
    playerBets := fun q => if q = player then s.playerBets q + actual else s.playerBets q
    pot := s.pot + actual }

/-- `TexasHoldem.process_action`: reject (returning the state untouched and
no snapshot) a player who is folded or not in the active roster; apply
fold/call/raise; reject an illegal check. Mirrors the Python method, with
the post-mutation object returned explicitly alongside the optional
snapshot. -/
def processAction (s : TexasHoldem) (player : String) (a : PlayerActionT) :
    TexasHoldem × Option GameState :=
  if player ∈ s.foldedPlayers ∨ player ∉ s.activePlayers then (s, none)
  else
    match a.action with
    | .fold =>
        let s' := { s with foldedPlayers := player :: s.foldedPlayers }
        (s', some (getGameState s' none))
    | .call =>
        let s' := placeBet s player (s.currentBet - s.playerBets player)
        (s', some (getGameState s' none))
    | .raise =>
        let totalBet := s.playerBets player + a.amount
        let s' :=
          if totalBet > s.currentBet then
            { placeBet s player a.amount with currentBet := totalBet }
          else s
        (s', some (getGameState s' none))
    | .check =>
        if s.playerBets player < s.currentBet then (s, none)
        else (s, some (getGameState s none))

/-- The hole-card dealing loop of `TexasHoldem.start_hand`: each active
player in order receives the next two cards of the deck. -/
def dealHoleCards : List String → List Card → (String → List Card) →
    ((String → List Card) × List Card)
| [], deck, acc => (acc, deck)
| p :: rest, deck, acc =>
    dealHoleCards rest (deck.drop 2)
      (fun q => if q = p then deck.take 2 else acc q)

/-- `TexasHoldem.start_hand`: reset per-hand state, deal two hole cards to
every player with a positive stack, and when at least two players are
active post the small and big blinds from the seats after the dealer
(wrapping by active-player count) and set the bet-to-match to the big
blind. The freshly shuffled deck is passed in as the list of cards in deal
order. -/
def startHand (s : TexasHoldem) (deck : List Card) : TexasHoldem × GameState :=
  let s1 := { s with
    communityCards := []
    holeCards := fun _ => []
    pot := 0
    currentBet := 0
    playerBets := fun _ => 0
    activePlayers := s.players.filter (fun p => decide (s.chips p > 0))
    foldedPlayers := [] }
  let dealt := dealHoleCards s1.activePlayers deck s1.holeCards
  let s2 := { s1 with holeCards := dealt.1, deck := dealt.2 }
  let s3 :=
    if s2.activePlayers.length ≥ 2 then
      let sbPlayer := s2.activePlayers.getD ((s2.dealerPosition + 1) % s2.activePlayers.length) ""
      let bbPlayer := s2.activePlayers.getD ((s2.dealerPosition + 2) % s2.activePlayers.length) ""
      let sA := placeBet s2 sbPlayer (min s2.smallBlind (s2.chips sbPlayer))
      let sB := placeBet sA bbPlayer (min s2.bigBlind (sA.chips bbPlayer))
      { sB with currentBet := sB.bigBlind }
    else s2
  (s3, getGameState s3 (some "preflop"))

/-- `TexasHoldem._determine_winner`: a lone non-folded player takes the
pot; otherwise evaluate every non-folded player's best 7-card hand, find
the maximum with Python `max` (successive `__gt__` comparisons), collect
every player whose hand is `__ge__` the maximum, and credit each winner
`pot // len(winners)` (floor division). The `pot` field itself is not
changed by the Python method. Evaluations are `Option`-valued only because
`_get_best_hand` returns `None` below five cards; at showdown seven cards
are always present, and the default is never reached there. -/
def determineWinner (s : TexasHoldem) : TexasHoldem × List (String × Int) :=
  let active := s.activePlayers.filter (fun p => decide (p ∉ s.foldedPlayers))
  match active with
  | [winner] =>
      ({ s with chips := fun q => if q = winner then s.chips q + s.pot else s.chips q },
       [(winner, s.pot)])
  | _ =>
      let playerHands := active.map
        (fun p => (p, (getBestHand (s.holeCards p ++ s.communityCards)).getD ⟨.highCard, []⟩))
      match playerHands.map Prod.snd with
      | [] => (s, [])
      | e :: rest =>
          let best := foldBest e rest
          let winners := (playerHands.filter (fun pe => hge pe.2 best)).map Prod.fst
          let share := Int.fdiv s.pot winners.length
          let s' := winners.foldl
            (fun st w =>
              { st with chips := fun q => if q = w then st.chips q + share else st.chips q })
            s
          (s', winners.map (fun w => (w, share)))

/-- Sum of all player stacks over the seated roster. -/
def sumChips (s : TexasHoldem) : Int := (s.players.map s.chips).sum

/-- Python `dict.get(name, 0)` on a final-chip-count mapping embedded as an
association list. -/
def getChips (m : List (String × Int)) (name : String) : Int :=
  match m.find? (fun kv => kv.1 = name) with
  | some kv => kv.2
  | none => 0

/-- Python `max(mapping.values())` on a final-chip-count mapping (0 on the
empty mapping, which Python instead rejects; sessions always have
players). -/
def maxChips (m : List (String × Int)) : Int :=
  match m.map Prod.snd with
  | [] => 0
  | v :: vs => vs.foldl max v

/-- The sessions-won count of `GameSimulator.run_benchmark`: the number of
sessions in which the player's final chip count equals the maximum final
chip count of that session. -/
def sessionsWon (sessions : List (List (String × Int))) (name : String) : Nat :=
  (sessions.filter (fun s => decide (getChips s name = maxChips s))).length

/-- A full 52-card deck in a fixed order, standing in for one concrete
shuffle. -/
def standardDeck : List Card :=
  (List.range 13).flatMap (fun i =>
    [⟨i + 2, .hearts⟩, ⟨i + 2, .diamonds⟩, ⟨i + 2, .clubs⟩, ⟨i + 2, .spades⟩])

/-- Concrete heads-up table: players A and B with 100 chips each, blinds
5/10, dealer position 0 (player A). -/
def headsUp : TexasHoldem := mkTexasHoldem ["A", "B"] 100 5 10

/-- The heads-up table right after `start_hand` with the concrete deck:
pot 15, A (big blind per the code's seat arithmetic) has bet 10, B (small
blind) has bet 5, bet-to-match 10. -/
def headsUpPost : TexasHoldem := (startHand headsUp standardDeck).1

/-- A board showing a royal flush, so that every non-folded player ties at
showdown. -/
def royalBoard : List Card :=
  [⟨14, .spades⟩, ⟨13, .spades⟩, ⟨12, .spades⟩, ⟨11, .spades⟩, ⟨10, .spades⟩]

/-- A concrete three-handed table at showdown: all three players started
with 1000 chips; C posted a small blind of 5 and folded, A and B each put
in 10, so the pot is 25 and the stacks are A:990, B:990, C:995 (stack sum
plus pot is 3000). The board is a royal flush, so A and B tie. -/
def splitPotTable : TexasHoldem :=
  { mkTexasHoldem ["A", "B", "C"] 1000 5 10 with
    chips := fun q => if q = "C" then 995 else 990
    communityCards := royalBoard
    holeCards := fun q =>
      if q = "A" then [⟨2, .hearts⟩, ⟨3, .hearts⟩]
      else if q = "B" then [⟨2, .diamonds⟩, ⟨3, .diamonds⟩]
      else [⟨2, .clubs⟩, ⟨3, .clubs⟩]
    pot := 25
    currentBet := 10
    playerBets := fun q => if q = "C" then 5 else 10
    activePlayers := ["A", "B", "C"]
    foldedPlayers := ["C"] }

/-- Ace-to-five straight with mixed suits. -/
def wheelOffsuit : List Card :=
  [⟨14, .diamonds⟩, ⟨5, .hearts⟩, ⟨4, .hearts⟩, ⟨3, .hearts⟩, ⟨2, .hearts⟩]

/-- Six-to-ten straight with mixed suits. -/
def tenHighStraight : List Card :=
  [⟨6, .hearts⟩, ⟨7, .diamonds⟩, ⟨8, .hearts⟩, ⟨9, .hearts⟩, ⟨10, .spades⟩]

/-- Ace-to-five straight flush (steel wheel), all hearts. -/
def wheelSuited : List Card :=
  [⟨14, .hearts⟩, ⟨5, .hearts⟩, ⟨4, .hearts⟩, ⟨3, .hearts⟩, ⟨2, .hearts⟩]

/-- A session whose two players finish with identical chip counts. -/
def tieSession : List (String × Int) := [("A", 1000), ("B", 1000)]

/-- A concrete 7-card hand (two hole cards plus five community cards). -/
def sevenCardSample : List Card :=
  [⟨2, .hearts⟩, ⟨5, .diamonds⟩, ⟨9, .spades⟩, ⟨11, .clubs⟩, ⟨13, .hearts⟩,
   ⟨3, .diamonds⟩, ⟨9, .hearts⟩]

/-- A concrete table used to exercise the all-in call: player A has 7
chips, faces a bet-to-match of 10 with no street contribution yet. -/
def shortStackTable : TexasHoldem :=
  { mkTexasHoldem ["A", "B"] 100 5 10 with
    chips := fun q => if q = "A" then 7 else 83
    pot := 10
    currentBet := 10
    playerBets := fun q => if q = "A" then 0 else 10
    activePlayers := ["A", "B"]
    foldedPlayers := [] }

instance : IsTotal Nat (fun a b => b ≤ a) := ⟨fun a b => le_total b a⟩

instance : IsTrans Nat (fun a b => b ≤ a) := ⟨fun _ _ _ h h2 => le_trans h2 h⟩

instance : IsAntisymm Nat (fun a b => b ≤ a) := ⟨fun _ _ h h2 => le_antisymm h2 h⟩

theorem listLt_irrefl : ∀ l : List Nat, listLt l l = false
| [] => rfl
| a :: as => by simp [listLt, listLt_irrefl as]

theorem listLt_trans : ∀ (a b c : List Nat),
    listLt a b = true → listLt b c = true → listLt a c = true
| [], [], _, h1, _ => by simp [listLt] at h1
| [], _ :: _, [], _, h2 => by simp [listLt] at h2
| [], _ :: _, _ :: _, _, _ => rfl
| _ :: _, [], _, h1, _ => by simp [listLt] at h1
| _ :: _, _ :: _, [], _, h2 => by simp [listLt] at h2
| a :: as, b :: bs, c :: cs, h1, h2 => by
    by_cases hab : a < b
    · by_cases hbc : b < c
      · have hac : a < c := hab.trans hbc
        simp [listLt, hac]
      · by_cases hcb : c < b
        · simp [listLt, hbc, hcb] at h2
        · have hbc' : b = c := le_antisymm (not_lt.1 hcb) (not_lt.1 hbc)
          subst hbc'
          simp [listLt, hab]
    · by_cases hba : b < a
      · simp [listLt, hab, hba] at h1
      · have hab' : a = b := le_antisymm (not_lt.1 hba) (not_lt.1 hab)
        subst hab'
        simp only [listLt, lt_irrefl, if_false] at h1 h2 ⊢
        by_cases hac : a < c
        · simp [hac]
        · by_cases hca : c < a
          · simp [hca] at h2
            exact absurd h2 hac
          · have hac' : a = c := le_antisymm (not_lt.1 hca) (not_lt.1 hac)
            subst hac'
            simp only [lt_irrefl, if_false] at h1 h2 ⊢
            exact listLt_trans as bs cs h1 h2

theorem listLt_conn : ∀ (a b : List Nat),
    listLt a b = false → listLt b a = false → a = b
| [], [], _, _ => rfl
| [], _ :: _, h1, _ => by simp [listLt] at h1
| _ :: _, [], _, h2 => by simp [listLt] at h2
| a :: as, b :: bs, h1, h2 => by
    by_cases hab : a < b
    · simp [listLt, hab] at h1
    · by_cases hba : b < a
      · simp [listLt, hba] at h2
      · have hab' : a = b := le_antisymm (not_lt.1 hba) (not_lt.1 hab)
        subst hab'
        simp only [listLt, lt_irrefl, if_false] at h1 h2
        rw [listLt_conn as bs h1 h2]

theorem HandRank.value_inj : ∀ {a b : HandRank}, a.value = b.value → a = b := by
  decide

theorem hgt_eq_hlt_swap (a b : HandEvaluation) : hgt a b = hlt b a := by
  unfold hgt hlt
  by_cases h : a.rank.value = b.rank.value
  · simp [h]
  · simp [h, Ne.symm h]

theorem hlt_irrefl (a : HandEvaluation) : hlt a a = false := by
  simp [hlt, listLt_irrefl]

theorem hlt_trans {a b c : HandEvaluation}
    (h1 : hlt a b = true) (h2 : hlt b c = true) : hlt a c = true := by
  unfold hlt at h1 h2 ⊢
  by_cases hab : a.rank.value = b.rank.value
  · by_cases hbc : b.rank.value = c.rank.value
    · rw [hab, hbc, if_neg (fun hh => hh rfl)]
      rw [hab, if_neg (fun hh => hh rfl)] at h1
      rw [hbc, if_neg (fun hh => hh rfl)] at h2
      exact listLt_trans _ _ _ h1 h2
    · rw [hab, if_pos hbc]
      rw [if_pos hbc] at h2
      exact h2
  · by_cases hbc : b.rank.value = c.rank.value
    · rw [← hbc, if_pos hab]
      rw [if_pos hab] at h1
      exact h1
    · rw [if_pos hab] at h1
      rw [if_pos hbc] at h2
      have hac : a.rank.value < c.rank.value :=
        (of_decide_eq_true h1).trans (of_decide_eq_true h2)
      rw [if_pos (Nat.ne_of_lt hac)]
      exact decide_eq_true hac

theorem hlt_asymm {a b : HandEvaluation} (h : hlt a b = true) : hlt b a = false := by
  by_contra hc
  have hba : hlt b a = true := by
    cases hv : hlt b a
    · exact absurd hv hc
    · rfl
  have := hlt_trans h hba
  rw [hlt_irrefl] at this
  exact Bool.false_ne_true this

theorem hlt_conn {a b : HandEvaluation}
    (h1 : hlt a b = false) (h2 : hlt b a = false) : a = b := by
  unfold hlt at h1 h2
  by_cases hab : a.rank.value = b.rank.value
  · simp only [hab, ne_eq, not_true_eq_false, if_false, ite_false] at h1 h2
    obtain ⟨ar, ak⟩ := a
    obtain ⟨br, bk⟩ := b
    simp only at hab h1 h2
    have hr : ar = br := HandRank.value_inj hab
    have hk : ak = bk := listLt_conn _ _ h1 h2
    rw [hr, hk]
  · exfalso
    simp only [hab, Ne.symm hab, ne_eq, if_true, ite_true, not_false_eq_true,
      decide_eq_true_eq, decide_eq_false_iff_not, not_lt] at h1 h2
    exact hab (le_antisymm h2 h1)

theorem pyEq_self (a : HandEvaluation) : pyEq a a = true := by
  simp [pyEq]

theorem hle_of_not_hlt {a b : HandEvaluation} (h : hlt b a = false) : hle a b = true := by
  cases hv : hlt a b
  · have hab : a = b := hlt_conn hv h
    rw [hle, hab, pyEq_self, Bool.or_true]
  · rw [hle, hv, Bool.true_or]

theorem foldBest_mem : ∀ (l : List HandEvaluation) (best : HandEvaluation),
    foldBest best l = best ∨ foldBest best l ∈ l
| [], _ => Or.inl rfl
| e :: rest, best => by
    simp only [foldBest]
    rcases foldBest_mem rest (if hgt e best then e else best) with h | h
    · rw [h]
      by_cases hc : hgt e best = true
      · rw [if_pos hc]
        exact Or.inr (List.mem_cons_self e rest)
      · rw [if_neg hc]
        exact Or.inl rfl
    · exact Or.inr (List.mem_cons_of_mem _ h)

theorem foldBest_not_lt : ∀ (l : List HandEvaluation) (best e : HandEvaluation),
    (e = best ∨ e ∈ l) → hlt (foldBest best l) e = false
| [], best, e, h => by
    rcases h with rfl | h
    · exact hlt_irrefl e
    · cases h
| x :: rest, best, e, h => by
    simp only [foldBest]
    by_cases hc : hgt x best = true
    · rw [if_pos hc]
      have hbx : hlt best x = true := by rw [← hgt_eq_hlt_swap]; exact hc
      have hresx : hlt (foldBest x rest) x = false :=
        foldBest_not_lt rest x x (Or.inl rfl)
      rcases h with rfl | h
      · cases hv : hlt (foldBest x rest) e
        · rfl
        · exfalso
          have := hlt_trans hv hbx
          rw [hresx] at this
          exact Bool.false_ne_true this
      · rcases List.mem_cons.mp h with rfl | h
        · exact hresx
        · exact foldBest_not_lt rest x e (Or.inr h)
    · rw [if_neg hc]
      have hbx : hlt best x = false := by rw [← hgt_eq_hlt_swap]; simpa using hc
      have hresb : hlt (foldBest best rest) best = false :=
        foldBest_not_lt rest best best (Or.inl rfl)
      rcases h with rfl | h
      · exact hresb
      · rcases List.mem_cons.mp h with rfl | h
        · cases hv : hlt (foldBest best rest) e
          · rfl
          · exfalso
            cases hxb : hlt e best
            · have hxe : e = best := hlt_conn hxb hbx
              rw [hxe, hresb] at hv
              exact Bool.false_ne_true hv
            · have := hlt_trans hv hxb
              rw [hresb] at this
              exact Bool.false_ne_true this
        · exact foldBest_not_lt rest best e (Or.inr h)

theorem sortDesc_perm_eq {l l' : List Nat} (h : l.Perm l') : sortDesc l = sortDesc l' := by
  unfold sortDesc
  refine List.eq_of_perm_of_sorted ?_
    (List.sorted_insertionSort _ _) (List.sorted_insertionSort _ _)
  exact (List.perm_insertionSort _ _).trans (h.trans (List.perm_insertionSort _ _).symm)

/-- C4: the claim says A-2-3-4-5 evaluates as a straight with tiebreak
high card 5, ranked strictly below the 6-7-8-9-10 straight, and that a
straight flush is royal exactly when its high card is the Ace. The code
instead uses `max(ranks)` (= 14, the Ace) as the wheel's tiebreak, so the
wheel ranks above the ten-high straight, and the suited wheel — whose
straight high card is 5, not the Ace — is classified as a royal flush. -/
theorem wheel_ranked_above_ten_high_straight :
    evaluate wheelOffsuit = ⟨HandRank.straight, [14]⟩ ∧
    evaluate tenHighStraight = ⟨HandRank.straight, [10]⟩ ∧
    hgt (evaluate wheelOffsuit) (evaluate tenHighStraight) = true ∧
    hlt (evaluate wheelOffsuit) (evaluate tenHighStraight) = false ∧
    evaluate wheelSuited = ⟨HandRank.royalFlush, [14]⟩ := by decide

/-- C2: the claim says the view passed to an acting player never contains
another player's hole cards. In the code `_get_game_state` copies the full
hole-card dictionary into every `GameState`, and `_play_single_hand`
passes that state to each agent's `make_decision`; here the snapshot
returned by `start_hand` — with player A to act — contains player B's two
hole cards. -/
theorem game_state_exposes_all_hole_cards :
    (startHand headsUp standardDeck).2.toAct = "A" ∧
    (startHand headsUp standardDeck).2.playerHoleCards "B"
      = [⟨2, Suit.clubs⟩, ⟨2, Suit.spades⟩] ∧
    ¬ (startHand headsUp standardDeck).2.playerHoleCards "B" = [] := by decide

/-- C5 counterexample: heads-up with dealer = A, the code posts the small
blind from seat dealer+1 (player B) and the big blind from seat dealer+2
mod 2 (player A itself), so A has contributed 10, not the 5 the claim
states. -/
theorem heads_up_blinds_reversed :
    headsUpPost.pot = 15 ∧ headsUpPost.currentBet = 10 ∧
    headsUpPost.playerBets "A" = 10 ∧ headsUpPost.playerBets "B" = 5 ∧
    ¬ headsUpPost.playerBets "A" = 5 := by decide

/-- C5 amended: heads-up A and B with 100 chips each, blinds 5/10, dealer
= A: after `start_hand` (for any deck) the pot is 15, B — the seat after
the dealer — has contributed the small blind 5 and owes 5 more to call the
bet-to-match of 10, and A has contributed the big blind 10. -/
theorem heads_up_blind_posting (deck : List Card) :
    (startHand headsUp deck).1.pot = 15 ∧
    (startHand headsUp deck).1.currentBet = 10 ∧
    (startHand headsUp deck).1.playerBets "A" = 10 ∧
    (startHand headsUp deck).1.playerBets "B" = 5 ∧
    (startHand headsUp deck).1.currentBet - (startHand headsUp deck).1.playerBets "B" = 5 := by
  refine ⟨?_, ?_, ?_, ?_, ?_⟩ <;>
    simp [startHand, headsUp, mkTexasHoldem, placeBet, getGameState]

set_option maxRecDepth 100000 in
/-- C1: the claim says every showdown resolution, including a split pot,
preserves stacks plus pot. In `_determine_winner` each of the n tied
winners is credited `pot // n` and the pot field is left unchanged, so at
this concrete reachable showdown (three players of starting stack 1000,
pot 25, two tied winners) the stacks sum to 2999 afterwards: one chip of
the pot remainder is destroyed, and stacks-plus-pot is not preserved. -/
theorem split_pot_showdown_loses_chips :
    sumChips splitPotTable + splitPotTable.pot = 3000 ∧
    (determineWinner splitPotTable).2 = [("A", 12), ("B", 12)] ∧
    sumChips (determineWinner splitPotTable).1 = 2999 ∧
    (determineWinner splitPotTable).1.pot = 25 ∧
    ¬ (sumChips (determineWinner splitPotTable).1 + (determineWinner splitPotTable).1.pot
        = sumChips splitPotTable + splitPotTable.pot) ∧
    ¬ (sumChips (determineWinner splitPotTable).1 = sumChips splitPotTable + splitPotTable.pot) := by
  decide

/-- C10 counterexample: in a session where A and B tie for the highest
final chip count, `run_benchmark` counts the session as won by A and also
as won by B (its test is equality with the maximum), whereas the claim
says a tied session is counted for nobody. -/
theorem tied_player_counted_as_session_winner :
    getChips tieSession "A" = 1000 ∧ getChips tieSession "B" = 1000 ∧
    maxChips tieSession = 1000 ∧
    sessionsWon [tieSession] "A" = 1 ∧ sessionsWon [tieSession] "B" = 1 ∧
    ¬ sessionsWon [tieSession] "A" = 0 := by decide

/-- C10 amended: a player is credited with winning a session whenever
their final chip count equals the session maximum, so when two players tie
at the maximum both are credited with a session win. -/
theorem session_win_credited_at_max_even_on_tie
    (sessions : List (List (String × Int))) (s : List (String × Int)) (p q : String)
    (hs : s ∈ sessions) (hpq : ¬ p = q)
    (hp : getChips s p = maxChips s) (hq : getChips s q = maxChips s) :
    1 ≤ sessionsWon sessions p ∧ 1 ≤ sessionsWon sessions q := by
  constructor
  · exact List.length_pos_of_mem
      (List.mem_filter.mpr ⟨hs, by simp [hp]⟩)
  · exact List.length_pos_of_mem
      (List.mem_filter.mpr ⟨hs, by simp [hq]⟩)

/-- C10 witness: in the concrete tied session both tied players receive
session-win credit. -/
theorem session_win_credited_at_max_even_on_tie_witness :
    (tieSession ∈ [tieSession] ∧ ¬ "A" = "B" ∧
     getChips tieSession "A" = maxChips tieSession ∧
     getChips tieSession "B" = maxChips tieSession) ∧
    (1 ≤ sessionsWon [tieSession] "A" ∧ 1 ≤ sessionsWon [tieSession] "B") :=
  ⟨⟨by decide, by decide, by decide, by decide⟩,
   session_win_credited_at_max_even_on_tie [tieSession] tieSession "A" "B"
     (by decide) (by decide) (by decide) (by decide)⟩

/-- C3 counterexample: in the post-blind heads-up state, B (street
contribution 5, bet-to-match 10, stack 95) raises 3; the claim says the
clamped amount (3 chips) moves from stack to pot without reopening, but
`process_action` accepts the action while moving no chips at all. -/
theorem small_raise_moves_no_chips :
    headsUpPost.currentBet = 10 ∧ headsUpPost.playerBets "B" = 5 ∧
    headsUpPost.chips "B" = 95 ∧ headsUpPost.pot = 15 ∧
    (processAction headsUpPost "B" ⟨GameAction.raise, 3⟩).2.isSome = true ∧
    (processAction headsUpPost "B" ⟨GameAction.raise, 3⟩).1.pot = headsUpPost.pot ∧
    ¬ (processAction headsUpPost "B" ⟨GameAction.raise, 3⟩).1.pot = headsUpPost.pot + 3 := by
  decide

/-- C3 amended: a raise by an eligible player is applied only when the
nominal total (street contribution + requested amount, unclamped) exceeds
the bet-to-match: then min(amount, stack) chips move from stack to pot and
the bet-to-match is set to that nominal total (which can exceed the actual
contribution when the amount is clamped); a raise whose nominal total does
not exceed the bet-to-match is accepted (a state view is returned) but
moves no chips and changes no field. -/
theorem raise_applied_only_when_reopening (s : TexasHoldem) (p : String) (amount : Int)
    (hactive : p ∈ s.activePlayers) (hnf : ¬ p ∈ s.foldedPlayers) :
    ((s.currentBet < s.playerBets p + amount →
        (processAction s p ⟨GameAction.raise, amount⟩).1.chips p
          = s.chips p - min amount (s.chips p) ∧
        (processAction s p ⟨GameAction.raise, amount⟩).1.pot
          = s.pot + min amount (s.chips p) ∧
        (processAction s p ⟨GameAction.raise, amount⟩).1.playerBets p
          = s.playerBets p + min amount (s.chips p) ∧
        (processAction s p ⟨GameAction.raise, amount⟩).1.currentBet
          = s.playerBets p + amount) ∧
     (¬ s.currentBet < s.playerBets p + amount →
        (processAction s p ⟨GameAction.raise, amount⟩).1 = s)) ∧
    (processAction s p ⟨GameAction.raise, amount⟩).2.isSome = true := by
  have hg : ¬ (p ∈ s.foldedPlayers ∨ ¬ p ∈ s.activePlayers) := by
    rintro (h | h)
    · exact hnf h
    · exact h hactive
  by_cases hc : s.currentBet < s.playerBets p + amount
  · have hred : processAction s p ⟨GameAction.raise, amount⟩
        = ({ placeBet s p amount with currentBet := s.playerBets p + amount },
           some (getGameState
             { placeBet s p amount with currentBet := s.playerBets p + amount } none)) := by
      unfold processAction
      rw [if_neg hg]
      show (if s.playerBets p + amount > s.currentBet then _ else s,
            some (getGameState (if s.playerBets p + amount > s.currentBet then _ else s) none))
          = _
      rw [if_pos hc]
    rw [hred]
    refine ⟨⟨fun _ => ⟨?_, ?_, ?_, ?_⟩, fun hn => absurd hc hn⟩, rfl⟩
    · simp [placeBet]
    · simp [placeBet]
    · simp [placeBet]
    · rfl
  · have hred : processAction s p ⟨GameAction.raise, amount⟩
        = (s, some (getGameState s none)) := by
      unfold processAction
      rw [if_neg hg]
      show (if s.playerBets p + amount > s.currentBet then _ else s,
            some (getGameState (if s.playerBets p + amount > s.currentBet then _ else s) none))
          = _
      rw [if_neg hc]
    rw [hred]
    exact ⟨⟨fun hy => absurd hy hc, fun _ => rfl⟩, rfl⟩

/-- C3 witness: the amended raise semantics instantiated at the concrete
post-blind heads-up state with B raising 3. -/
theorem raise_applied_only_when_reopening_witness :
    ("B" ∈ headsUpPost.activePlayers ∧ ¬ "B" ∈ headsUpPost.foldedPlayers) ∧
    (((headsUpPost.currentBet < headsUpPost.playerBets "B" + 3 →
        (processAction headsUpPost "B" ⟨GameAction.raise, 3⟩).1.chips "B"
          = headsUpPost.chips "B" - min 3 (headsUpPost.chips "B") ∧
        (processAction headsUpPost "B" ⟨GameAction.raise, 3⟩).1.pot
          = headsUpPost.pot + min 3 (headsUpPost.chips "B") ∧
        (processAction headsUpPost "B" ⟨GameAction.raise, 3⟩).1.playerBets "B"
          = headsUpPost.playerBets "B" + min 3 (headsUpPost.chips "B") ∧
        (processAction headsUpPost "B" ⟨GameAction.raise, 3⟩).1.currentBet
          = headsUpPost.playerBets "B" + 3) ∧
      (¬ headsUpPost.currentBet < headsUpPost.playerBets "B" + 3 →
        (processAction headsUpPost "B" ⟨GameAction.raise, 3⟩).1 = headsUpPost)) ∧
     (processAction headsUpPost "B" ⟨GameAction.raise, 3⟩).2.isSome = true) :=
  ⟨⟨by decide, by decide⟩,
   raise_applied_only_when_reopening headsUpPost "B" 3 (by decide) (by decide)⟩

/-- C6: an action by a folded player or by a player outside the active
roster, and a check by a player whose street contribution is below the
bet-to-match, is rejected: `process_action` returns no snapshot and the
table state is returned exactly as it was, every field unchanged. -/
theorem rejected_action_leaves_state_unchanged (s : TexasHoldem) (p : String)
    (a : PlayerActionT)
    (h : p ∈ s.foldedPlayers ∨ ¬ p ∈ s.activePlayers ∨
         (a.action = GameAction.check ∧ s.playerBets p < s.currentBet)) :
    processAction s p a = (s, none) := by
  unfold processAction
  by_cases hg : p ∈ s.foldedPlayers ∨ ¬ p ∈ s.activePlayers
  · rw [if_pos hg]
  · rw [if_neg hg]
    rcases h with h | h | ⟨hck, hck2⟩
    · exact absurd (Or.inl h) hg
    · exact absurd (Or.inr h) hg
    · rw [hck]
      show (if s.playerBets p < s.currentBet then (s, none) else _) = (s, none)
      rw [if_pos hck2]

/-- C6 witness: the folded player C calling at the concrete showdown table
is rejected and the state is returned unchanged. -/
theorem rejected_action_leaves_state_unchanged_witness :
    ("C" ∈ splitPotTable.foldedPlayers) ∧
    processAction splitPotTable "C" ⟨GameAction.call, 0⟩ = (splitPotTable, none) :=
  ⟨by decide,
   rejected_action_leaves_state_unchanged splitPotTable "C" ⟨GameAction.call, 0⟩
     (Or.inl (by decide))⟩

/-- C7: `_place_bet` always moves exactly min(amount, stack) chips — never
more than the stack at the moment of betting — into the street
contribution and the pot; and an eligible player with stack 7 facing a
bet-to-match of 10 who calls is accepted, contributes exactly 7 (all-in),
ends with stack 0, and is not folded. -/
theorem street_contribution_clamped_to_stack (s : TexasHoldem) (p : String) (amount : Int)
    (hactive : p ∈ s.activePlayers) (hnf : ¬ p ∈ s.foldedPlayers) :
    ((placeBet s p amount).playerBets p = s.playerBets p + min amount (s.chips p) ∧
     (placeBet s p amount).chips p = s.chips p - min amount (s.chips p) ∧
     (placeBet s p amount).pot = s.pot + min amount (s.chips p) ∧
     min amount (s.chips p) ≤ s.chips p) ∧
    (s.chips p = 7 → s.currentBet = 10 → s.playerBets p = 0 →
     (processAction s p ⟨GameAction.call, 0⟩).2.isSome = true ∧
     (processAction s p ⟨GameAction.call, 0⟩).1.playerBets p = 7 ∧
     (processAction s p ⟨GameAction.call, 0⟩).1.chips p = 0 ∧
     ¬ p ∈ (processAction s p ⟨GameAction.call, 0⟩).1.foldedPlayers) := by
  have hg : ¬ (p ∈ s.foldedPlayers ∨ ¬ p ∈ s.activePlayers) := by
    rintro (h | h)
    · exact hnf h
    · exact h hactive
  refine ⟨⟨by simp [placeBet], by simp [placeBet], by simp [placeBet], min_le_right _ _⟩, ?_⟩
  intro h7 h10 h0
  have hred : processAction s p ⟨GameAction.call, 0⟩
      = (placeBet s p (s.currentBet - s.playerBets p),
         some (getGameState (placeBet s p (s.currentBet - s.playerBets p)) none)) := by
    unfold processAction
    rw [if_neg hg]
  rw [hred]
  refine ⟨rfl, ?_, ?_, ?_⟩
  · simp [placeBet, h7, h10, h0]
  · simp [placeBet, h7, h10, h0]
  · simpa [placeBet] using hnf

/-- C7 witness: the all-in call at the concrete short-stack table. -/
theorem street_contribution_clamped_to_stack_witness :
    ("A" ∈ shortStackTable.activePlayers ∧ ¬ "A" ∈ shortStackTable.foldedPlayers ∧
     shortStackTable.chips "A" = 7 ∧ shortStackTable.currentBet = 10 ∧
     shortStackTable.playerBets "A" = 0) ∧
    ((processAction shortStackTable "A" ⟨GameAction.call, 0⟩).2.isSome = true ∧
     (processAction shortStackTable "A" ⟨GameAction.call, 0⟩).1.playerBets "A" = 7 ∧
     (processAction shortStackTable "A" ⟨GameAction.call, 0⟩).1.chips "A" = 0 ∧
     ¬ "A" ∈ (processAction shortStackTable "A" ⟨GameAction.call, 0⟩).1.foldedPlayers) :=
  ⟨⟨by decide, by decide, by decide, by decide, by decide⟩,
   (street_contribution_clamped_to_stack shortStackTable "A" 0 (by decide) (by decide)).2
     (by decide) (by decide) (by decide)⟩

/-- C9: `evaluate` is invariant under permutation of its 5-card input —
it reads the cards only through the descending-sorted rank list and the
set of suits, both of which are permutation-invariant. -/
theorem evaluate_perm_invariant {l l2 : List Card} (h : l.Perm l2) :
    evaluate l = evaluate l2 := by
  unfold evaluate
  rw [sortDesc_perm_eq ((h.map Card.rank)), ((h.map Card.suit).dedup).length_eq]

/-- C9 witness: a concrete two-pair hand and a reordering of it evaluate
identically. -/
theorem evaluate_perm_invariant_witness :
    (([⟨9, Suit.spades⟩, ⟨9, Suit.hearts⟩, ⟨4, Suit.diamonds⟩, ⟨4, Suit.spades⟩,
        ⟨12, Suit.clubs⟩] : List Card).Perm
      [⟨12, Suit.clubs⟩, ⟨4, Suit.spades⟩, ⟨9, Suit.hearts⟩, ⟨4, Suit.diamonds⟩,
        ⟨9, Suit.spades⟩]) ∧
    evaluate [⟨9, Suit.spades⟩, ⟨9, Suit.hearts⟩, ⟨4, Suit.diamonds⟩, ⟨4, Suit.spades⟩,
        ⟨12, Suit.clubs⟩]
      = evaluate [⟨12, Suit.clubs⟩, ⟨4, Suit.spades⟩, ⟨9, Suit.hearts⟩, ⟨4, Suit.diamonds⟩,
        ⟨9, Suit.spades⟩] :=
  ⟨by decide, evaluate_perm_invariant (by decide)⟩

/-- C8: on a 7-card hand there are exactly 21 five-card combinations, and
`_get_best_hand` returns one of their evaluations that is greater-or-equal
(in the `HandEvaluation` total order) to every one of them — exactly the
maximum over the 21 subsets. -/
theorem best_hand_is_max_of_21_subsets (cards : List Card) (h : cards.length = 7) :
    ((cards.sublistsLen 5).map evaluate).length = 21 ∧
    ∃ m, getBestHand cards = some m ∧
      m ∈ (cards.sublistsLen 5).map evaluate ∧
      ∀ e ∈ (cards.sublistsLen 5).map evaluate, hle e m = true := by
  have hlen : ((cards.sublistsLen 5).map evaluate).length = 21 := by
    rw [List.length_map, List.length_sublistsLen, h]
    decide
  refine ⟨hlen, ?_⟩
  cases hev : (cards.sublistsLen 5).map evaluate with
  | nil => rw [hev] at hlen; simp at hlen
  | cons e rest =>
      refine ⟨foldBest e rest, ?_, ?_, ?_⟩
      · unfold getBestHand
        rw [hev]
      · rcases foldBest_mem rest e with hm | hm
        · rw [hm]; exact List.mem_cons_self _ _
        · exact List.mem_cons_of_mem _ hm
      · intro x hx
        apply hle_of_not_hlt
        apply foldBest_not_lt
        rcases List.mem_cons.mp hx with rfl | hx2
        · exact Or.inl rfl
        · exact Or.inr hx2

/-- C8 witness: the maximality of `_get_best_hand` instantiated at a
concrete 7-card hand. -/
theorem best_hand_is_max_of_21_subsets_witness :
    sevenCardSample.length = 7 ∧
    (((sevenCardSample.sublistsLen 5).map evaluate).length = 21 ∧
     ∃ m, getBestHand sevenCardSample = some m ∧
       m ∈ (sevenCardSample.sublistsLen 5).map evaluate ∧
       ∀ e ∈ (sevenCardSample.sublistsLen 5).map evaluate, hle e m = true) :=
  ⟨by decide, best_hand_is_max_of_21_subsets sevenCardSample (by decide)⟩

end PokerBench



